import Mathlib

/-!
Verification development for the ML forecasting utilities of the AirQo API
repository (src/workflows/airqo_etl_utils/ml_utils.py).

The pandas dataframes are embedded as lists of rows.  Missing numeric values
(NaN) are embedded as `none : Option ℚ`; timestamps are embedded as integers
counting hours.  Rolling aggregation functions ("mean", "std", "median",
"skew", "max", "min") are abstracted as a parameter `aggs : String → List ℚ →
Option ℚ` applied to the complete window of non-missing values, mirroring
pandas dispatching `.agg(f)` by name with `min_periods` equal to the window
size (the statistics themselves are irrational in general, and none of the
claims depends on their numeric value).
-/

/-- An observation row of the input table.  `pm2_5 = none` models NaN. -/
structure Row where
  device_id : String
  site_id : String
  timestamp : Int
  pm2_5 : Option ℚ
deriving Repr, DecidableEq

/-- `additional_columns = ["site_id"]` (module-level constant). -/
def additional_columns : List String := ["site_id"]

/-- The grouping columns chosen by `preprocess_data`:
`["device_id"] + additional_columns if job_type == "prediction" else ["device_id"]`. -/
def group_columns (job_type : String) : List String :=
  if job_type = "prediction" then ["device_id"] ++ additional_columns else ["device_id"]

/-- The value a row carries for a grouping column. -/
def colValue (r : Row) (c : String) : String :=
  if c = "device_id" then r.device_id else if c = "site_id" then r.site_id else ""

/-- The grouping key of a row under `group_columns job_type`. -/
def rowKey (job_type : String) (r : Row) : List String :=
  (group_columns job_type).map (colValue r)

/-- The same-device rows strictly before position `i` (in order), i.e. the
prior members of row `i`'s `groupby(["device_id"])` group. -/
def groupPriors (df : List Row) (i : Nat) : List Row :=
  match df.get? i with
  | none => []
  | some r => (df.take i).filter (fun x => x.device_id = r.device_id)

/-- `df.groupby(["device_id"])[target].shift(s)` evaluated at row `i`: the
target value of the `s`-th most recent prior row of the same device (NaN when
there is no such row). -/
def groupShiftVal (df : List Row) (s : Nat) (i : Nat) : Option ℚ :=
  ((groupPriors df i).reverse.get? (s - 1)).bind Row.pm2_5

/-- The frequency enum accepted by the feature functions. -/
inductive Freq | hourly | daily
deriving Repr, DecidableEq

/-- The unit suffix used in generated column names. -/
def Freq.unit : Freq → String
  | .hourly => "hour"
  | .daily => "day"

/-- The lag shifts hard-coded per frequency (`shifts = [1, 2, 6, 12]` hourly,
`[1, 2, 3, 7]` daily). -/
def lagShifts : Freq → List Nat
  | .hourly => [1, 2, 6, 12]
  | .daily => [1, 2, 3, 7]

/-- The rolling window sizes hard-coded per frequency. -/
def rollWindows : Freq → List Nat
  | .hourly => [3, 6, 12, 24]
  | .daily => [2, 3, 7]

/-- The rolling statistics hard-coded per frequency. -/
def rollFuns : Freq → List String
  | .hourly => ["mean", "std", "median", "skew"]
  | .daily => ["mean", "std", "max", "min"]

/-- Name of a lag column: `pm2_5_last_{s}_{unit}`. -/
def lagName (freq : Freq) (s : Nat) : String :=
  "pm2_5_last_" ++ toString s ++ "_" ++ freq.unit

/-- Name of a rolling column: `pm2_5_{f}_{s}_{unit}`. -/
def rollName (freq : Freq) (s : Nat) (f : String) : String :=
  "pm2_5_" ++ f ++ "_" ++ toString s ++ "_" ++ freq.unit

/-- The names of all columns `get_lag_and_roll_features` adds, in the order
of the source's loops: lag columns first, then for each window every
statistic. -/
def addedColNames (freq : Freq) : List String :=
  (lagShifts freq).map (lagName freq) ++
    (rollWindows freq).flatMap (fun s => (rollFuns freq).map (rollName freq s))

/-- The lag column for shift `s`: `groupby(["device_id"])[target].shift(s)`
evaluated at each row position. -/
def lagCol (df : List Row) (s : Nat) : List (Option ℚ) :=
  (List.range df.length).map (groupShiftVal df s)

/-- The rolling-column value at row `i` for window `w` and aggregate `g`:
`groupby(["device_id"])[target].shift(1).rolling(w).agg(f)` at `i`.  The
shift is per device but the rolling window runs over the resulting flat
series, covering positions `i-w+1 .. i`; with pandas' default
`min_periods = w` the result is NaN unless all `w` window entries are
non-missing. -/
def rollingVal (df : List Row) (w : Nat) (g : List ℚ → Option ℚ) (i : Nat) : Option ℚ :=
  let vs := (List.range w).map (fun j => groupShiftVal df 1 (i + 1 - w + j))
  if w ≤ i + 1 ∧ vs.all Option.isSome then g vs.reduceOption else none

/-- The rolling column for window `w` and statistic name `f`. -/
def rollCol (df : List Row) (w : Nat) (aggs : String → List ℚ → Option ℚ)
    (f : String) : List (Option ℚ) :=
  (List.range df.length).map (rollingVal df w (aggs f))

/-- `get_lag_and_roll_features(df, target_col, freq)`: the added feature
columns, as `(name, column)` pairs, in source order.  (The returned frame is
`df.copy()` extended with exactly these columns; the empty-frame and
missing-column checks of the source raise before any column is added.) -/
def get_lag_and_roll_features (df : List Row) (freq : Freq)
    (aggs : String → List ℚ → Option ℚ) : List (String × List (Option ℚ)) :=
  (lagShifts freq).map (fun s => (lagName freq s, lagCol df s)) ++
    (rollWindows freq).flatMap (fun w =>
      (rollFuns freq).map (fun f => (rollName freq w f, rollCol df w aggs f)))

/-! ## preprocess_data: per-group linear interpolation, daily resampling, dropna -/

/-- The last observed (non-missing) value strictly before position `i` of a
series, with its position. -/
def lastObsBefore (l : List (Option ℚ)) (i : Nat) : Option (Nat × ℚ) :=
  ((l.take i).enum.reverse).findSome? (fun p => p.2.map (fun a => (p.1, a)))

/-- The first observed (non-missing) value strictly after position `i` of a
series, with its position. -/
def nextObsAfter (l : List (Option ℚ)) (i : Nat) : Option (Nat × ℚ) :=
  (l.enum.drop (i + 1)).findSome? (fun p => p.2.map (fun a => (p.1, a)))

/-- `Series.interpolate(method="linear", limit_direction="both")` evaluated at
position `i`: observed values are kept; a missing value bounded by observations
on both sides is linearly interpolated on positions (pandas' "linear" method
treats the values as equally spaced); a missing value with observations on one
side only is filled with the nearest observed value (numpy's interp clamps
outside the observed range, and `limit_direction="both"` allows filling in both
directions); a series with no observation at all stays missing. -/
def interpAt (l : List (Option ℚ)) (i : Nat) : Option ℚ :=
  match l.get? i with
  | some (some v) => some v
  | _ =>
    match lastObsBefore l i, nextObsAfter l i with
    | some (j, a), some (k, b) =>
        some (a + (b - a) * (((i : ℚ) - (j : ℚ)) / ((k : ℚ) - (j : ℚ))))
    | none, some (_, b) => some b
    | some (_, a), none => some a
    | none, none => none

/-- Groupwise interpolation of the whole series. -/
def interpolateLinearBoth (l : List (Option ℚ)) : List (Option ℚ) :=
  (List.range l.length).map (interpAt l)

/-- The position of row `i` inside its `rowKey job_type` group (count of prior
rows with the same key). -/
def posInKeyGroup (job_type : String) (df : List Row) (i : Nat) : Nat :=
  match df.get? i with
  | none => 0
  | some r => ((df.take i).filter (fun x => rowKey job_type x = rowKey job_type r)).length

/-- The pm2_5 series of row `i`'s group, in row order. -/
def keyGroupSeries (job_type : String) (df : List Row) (i : Nat) : List (Option ℚ) :=
  match df.get? i with
  | none => []
  | some r => (df.filter (fun x => rowKey job_type x = rowKey job_type r)).map Row.pm2_5

/-- The interpolated pm2_5 of the row at position `i`: its group's series
interpolated at the row's position in the group. -/
def interpVal (job_type : String) (df : List Row) (i : Nat) : Option ℚ :=
  interpAt (keyGroupSeries job_type df i) (posInKeyGroup job_type df i)

/-- `data.groupby(group_columns)["pm2_5"].transform(lambda x: x.interpolate(
method="linear", limit_direction="both"))`: every row's pm2_5 is replaced by
the interpolation of its group's series at the row's position in the group. -/
def transformInterpolate (job_type : String) (df : List Row) : List Row :=
  df.enum.map (fun p => { p.2 with pm2_5 := interpVal job_type df p.1 })

/-- The calendar day of a timestamp in hours (floor division, one row per day). -/
def dayOf (t : Int) : Int := Int.fdiv t 24

/-- NaN-skipping mean of a series, as pandas `mean(numeric_only=True)`:
missing entries are ignored; an empty or all-missing selection gives NaN. -/
def nanMean (l : List (Option ℚ)) : Option ℚ :=
  let obs := l.reduceOption
  if obs.length = 0 then none else some (obs.sum / (obs.length : ℚ))

/-- Helper for `uniqueFirstSeen`: keep the first occurrence of every element
not seen yet. -/
def uniqueFirstSeenAux {α : Type} [DecidableEq α] (seen : List α) : List α → List α
  | [] => []
  | a :: as =>
    if a ∈ seen then uniqueFirstSeenAux seen as
    else a :: uniqueFirstSeenAux (a :: seen) as

/-- The elements in first-seen order, deduplicated (pandas `unique`). -/
def uniqueFirstSeen {α : Type} [DecidableEq α] (l : List α) : List α :=
  uniqueFirstSeenAux [] l

/-- `data.groupby(group_columns).resample("D", on="timestamp").mean(
numeric_only=True)` followed by `reset_index`: per group (in sorted key order,
pandas' groupby default) one row per calendar day from the group's first to its
last day, carrying the NaN-skipping mean of the group's pm2_5 on that day.
Non-numeric columns outside the grouping key are dropped by `numeric_only`;
in particular `site_id` survives only when it is part of the key, so rows of a
device-only (training) grouping are rebuilt with an empty `site_id`. -/
def resampleDailyMean (job_type : String) (df : List Row) : List Row :=
  let keys := (uniqueFirstSeen (df.map (rowKey job_type))).mergeSort
    (fun a b => ¬ (b < a))
  keys.flatMap (fun key =>
    let grp := df.filter (fun x => rowKey job_type x = key)
    let days := grp.map (fun r => dayOf r.timestamp)
    match days.min?, days.max? with
    | some dmin, some dmax =>
        (List.range ((dmax - dmin + 1).toNat)).map (fun k =>
          let d := dmin + (k : Int)
          { device_id := key.headD ""
            site_id := if job_type = "prediction" then key.getD 1 "" else ""
            timestamp := d * 24
            pm2_5 := nanMean ((grp.filter (fun r => dayOf r.timestamp = d)).map Row.pm2_5) })
    | _, _ => [])

/-- `preprocess_data(data, data_frequency, job_type)` (the required-column and
timestamp-parse checks of the source are vacuous here because `Row` carries
the columns by construction): interpolate per group, resample per day for the
daily frequency, interpolate again, then `dropna(subset=["pm2_5"])`. -/
def preprocess_data (data : List Row) (data_frequency job_type : String) : List Row :=
  let d1 := transformInterpolate job_type data
  let d2 := if data_frequency = "daily" then resampleDailyMean job_type d1 else d1
  let d3 := transformInterpolate job_type d2
  d3.filter (fun r => r.pm2_5.isSome)

/-! ## The recursive forecast engine (`generate_forecasts` / `get_forecasts`)

A per-device forecast frame row carries its timestamp (in hours), its target
value (non-missing after preprocessing and feature generation) and the feature
columns as an association list.  The loaded model is abstracted as a function
`predict : List FRow → ℚ` of the whole current frame (the source passes the
last row's feature columns, which are themselves a function of the frame). -/

/-- A row of the per-device forecast frame `df_tmp`. -/
structure FRow where
  timestamp : Int
  pm2_5 : ℚ
  feats : List (String × Option ℚ)
deriving Repr, DecidableEq

/-- `df[col] = series` for a feature column: overwrite the entry when the
column exists, append it otherwise. -/
def setFeat (fs : List (String × Option ℚ)) (name : String) (v : Option ℚ) :
    List (String × Option ℚ) :=
  if fs.any (fun p => p.1 = name) then
    fs.map (fun p => if p.1 = name then (name, v) else p)
  else fs ++ [(name, v)]

/-- `df.shift(s, axis=0)["pm2_5"]` at row `i` of a flat (single-device) frame
whose pm2_5 column is `pms`: the value `s` rows earlier, NaN when there is
none. -/
def plainShift (pms : List ℚ) (s i : Nat) : Option ℚ :=
  if s ≤ i then pms.get? (i - s) else none

/-- `df_tmp_no_ts.shift(1, axis=0).rolling(w).agg(f)["pm2_5"]` at row `i` of
the forecast frame: the window covers the shifted series at positions
`i-w+1 .. i`, i.e. the pm2_5 values at positions `i-w .. i-1`; with pandas'
default `min_periods = w` the result is NaN unless all entries exist. -/
def forecastRollingVal (pms : List ℚ) (w : Nat) (g : List ℚ → Option ℚ) (i : Nat) :
    Option ℚ :=
  let vs := (List.range w).map (fun j => plainShift pms (w - j) i)
  if w ≤ i + 1 ∧ vs.all Option.isSome then g vs.reduceOption else none

/-- One iteration of the loop body of `get_forecasts`.

The source appends a copy of the last row (`pd.concat([df_tmp,
df_tmp.iloc[-1:]])`), snapshots `df_tmp_no_ts`, advances the new row's
timestamp, recomputes the lag and rolling columns for the whole frame from
the current pm2_5 column, recomputes the cyclic columns for the new row, and
finally writes the model's prediction into the new row's pm2_5.

Two chained assignments of the source write through a copy returned by
`df_tmp.tail(1)` and are silently lost (`pd.options.mode.chained_assignment =
None` suppresses the warning): the daily-frequency timestamp advance
`df_tmp.tail(1)["timestamp"] += timedelta(days=1)` and every cyclic-feature
update `df_tmp.tail(1)[...] = ...`.  Only the hourly branch advances the
timestamp, through a direct `df_tmp.iloc[-1, ...] = df_tmp.iloc[-2, ...] +
pd.Timedelta(hours=1)` write.  Both no-ops are modelled as such. -/
def forecastStep (aggs : String → List ℚ → Option ℚ) (predict : List FRow → ℚ)
    (freq : Freq) (df_tmp : List FRow) : List FRow :=
  match df_tmp.getLast? with
  | none => df_tmp
  | some last =>
    let appended := df_tmp ++ [last]
    let pms := appended.map FRow.pm2_5
    let appended2 :=
      match freq with
      | .hourly => df_tmp ++ [{ last with timestamp := last.timestamp + 1 }]
      | .daily => appended
    let withFeats := appended2.enum.map (fun p =>
      let fs1 := (lagShifts freq).foldl
        (fun fs s => setFeat fs (lagName freq s) (plainShift pms s p.1)) p.2.feats
      let fs2 := (rollWindows freq).foldl
        (fun fs w => (rollFuns freq).foldl
          (fun fs f => setFeat fs (rollName freq w f) (forecastRollingVal pms w (aggs f) p.1))
          fs) fs1
      { p.2 with feats := fs2 })
    match withFeats.getLast? with
    | none => withFeats
    | some newLast => withFeats.dropLast ++ [{ newLast with pm2_5 := predict withFeats }]

/-- `get_forecasts(df_tmp, forecast_model, frequency, horizon)`: iterate the
loop body `horizon` times, then return `df_tmp.iloc[-int(horizon):, :]`.
(Python's `iloc[-0:]` is the whole frame, hence the `horizon = 0` case.) -/
def get_forecasts (aggs : String → List ℚ → Option ℚ) (predict : List FRow → ℚ)
    (freq : Freq) (horizon : Nat) (df_tmp : List FRow) : List FRow :=
  let final := (forecastStep aggs predict freq)^[horizon] df_tmp
  if horizon = 0 then final else final.drop (final.length - horizon)

/-! ## Model registry (`GCSUtils`)

The blob store is a map from full paths (`bucket/name`) to artifact bytes. -/

/-- The blob store state. -/
def Store : Type := String → Option String

/-- `get_trained_model_from_gcs(project, bucket, source_blob_name)`: read the
artifact at `bucket_name + "/" + source_blob_name`. -/
def get_trained_model_from_gcs (store : Store) (bucket_name source_blob_name : String) :
    Option String :=
  store (bucket_name ++ "/" ++ source_blob_name)

/-- The path an existing artifact is renamed to before overwriting:
`f"{bucket_name}/{datetime.now()}-{source_blob_name}"` — the timestamp is
prepended to the blob name. -/
def backupPath (bucket_name now source_blob_name : String) : String :=
  bucket_name ++ "/" ++ now ++ "-" ++ source_blob_name

/-- `upload_trained_model_to_gcs(trained_model, project, bucket,
source_blob_name)`: try to rename the existing blob to the timestamped backup
path (the bare `except` swallows the failure when no blob exists), then write
the new artifact at the original path.  `now` stands for `datetime.now()`. -/
def upload_trained_model_to_gcs (store : Store) (now trained_model : String)
    (bucket_name source_blob_name : String) : Store :=
  let path := bucket_name ++ "/" ++ source_blob_name
  let store1 : Store :=
    match store path with
    | some old => fun k =>
        if k = path then none
        else if k = backupPath bucket_name now source_blob_name then some old
        else store k
    | none => store
  fun k => if k = path then some trained_model else store1 k

/-! ## Temporal split of `train_and_save_forecast_models`

The split consults only `device_id` and `timestamp.dt.month` (the calendar
month-of-year, 1–12), so a training row is embedded by those two columns. -/

/-- A training row as seen by the split: its device and its timestamp's
`dt.month`. -/
structure TRow where
  device_id : String
  month : Nat
deriving Repr, DecidableEq

/-- The per-device loop of `train_and_save_forecast_models`: for each device
(in first-seen order), the device's distinct `dt.month` values in first-seen
order are split as `months[:8]`, `months[8:9]`, `months[9:]`, the device's
rows are filtered by `dt.month.isin(...)`, and the three global tables are
grown by concatenation. -/
def train_val_test_split (training_data : List TRow) :
    List TRow × List TRow × List TRow :=
  (uniqueFirstSeen (training_data.map TRow.device_id)).foldl
    (fun acc device =>
      let device_df := training_data.filter (fun r => r.device_id = device)
      let months := uniqueFirstSeen (device_df.map TRow.month)
      let train_months := months.take 8
      let val_months := (months.drop 8).take 1
      let test_months := months.drop 9
      (acc.1 ++ device_df.filter (fun r => r.month ∈ train_months),
       acc.2.1 ++ device_df.filter (fun r => r.month ∈ val_months),
       acc.2.2 ++ device_df.filter (fun r => r.month ∈ test_months)))
    ([], [], [])

/-! ## Forecast sink (`save_forecasts_to_mongo`) -/

/-- A forecast table row (pm2_5 is a plain float after the cast in
`generate_forecasts`). -/
structure FTableRow where
  device_id : String
  site_id : String
  timestamp : Int
  pm2_5 : ℚ
deriving Repr, DecidableEq

/-- A document assembled for the sink. -/
structure ForecastDoc where
  device_id : String
  created_at : String
  site_id : String
  pm2_5 : List ℚ
  timestamp : List Int
deriving Repr, DecidableEq

/-- A document of the Mongo forecasts collection. -/
structure MDoc where
  device_id : String
  site_id : String
  pm2_5 : List ℚ
  timestamp : List Int
  created_at : String
deriving Repr, DecidableEq

/-- The `forecast_results` list built by `save_forecasts_to_mongo`: one
document per unique `device_id`, whose `site_id` is
`data[data["device_id"] == i]["site_id"].unique()[0]` (the device's first
site) and whose arrays collect every row of the device — across all its
sites. -/
def forecast_results (data : List FTableRow) (created_at : String) :
    List ForecastDoc :=
  (uniqueFirstSeen (data.map FTableRow.device_id)).map (fun i =>
    let ddf := data.filter (fun r => r.device_id = i)
    { device_id := i
      created_at := created_at
      site_id := (uniqueFirstSeen (ddf.map FTableRow.site_id)).headD ""
      pm2_5 := ddf.map FTableRow.pm2_5
      timestamp := ddf.map FTableRow.timestamp })

/-- `collection.update_one(filter_query, {"$set": {...}}, upsert=True)` with
filter `{device_id, site_id}`: the first matching document gets its `pm2_5`,
`timestamp` and `created_at` fields replaced wholesale; with no match a fresh
document is inserted. -/
def update_one (coll : List MDoc) (doc : ForecastDoc) : List MDoc :=
  match coll with
  | [] => [{ device_id := doc.device_id, site_id := doc.site_id,
             pm2_5 := doc.pm2_5, timestamp := doc.timestamp,
             created_at := doc.created_at }]
  | m :: rest =>
    if m.device_id = doc.device_id ∧ m.site_id = doc.site_id then
      { m with pm2_5 := doc.pm2_5, timestamp := doc.timestamp,
               created_at := doc.created_at } :: rest
    else m :: update_one rest doc

/-- `save_forecasts_to_mongo(data, frequency)`: build `forecast_results`,
then upsert each document; a per-document exception (`fails doc = true`) is
caught and logged and the loop continues with the next document. -/
def save_forecasts_to_mongo (data : List FTableRow) (created_at : String)
    (coll : List MDoc) (fails : ForecastDoc → Bool) : List MDoc :=
  (forecast_results data created_at).foldl
    (fun c doc => if fails doc then c else update_one c doc) coll

/-! ## Frame effects of the feature-engineering operations

To settle which dataframes a call mutates, each operation is also embedded at
the level of frame descriptors: the column list, whether the `timestamp`
column has been overwritten by `pd.to_datetime`, whether the `pm2_5` column
has been overwritten by the interpolation transform, and the row count (used
only by the emptiness checks; counts after row-dropping operations are not
tracked at this level and no theorem mentions them).  Each function returns
the caller's frame as it stands after the call together with the returned
result, so an in-place mutation of the input is visible as a first component
differing from the argument. -/

/-- A dataframe descriptor. -/
structure PTable where
  cols : List String
  tsParsed : Bool
  pm25Filled : Bool
  nrows : Nat
deriving Repr, DecidableEq

/-- `df[c] = series`: overwrite when the column exists, append otherwise. -/
def setCol (cs : List String) (c : String) : List String :=
  if c ∈ cs then cs else cs ++ [c]

/-- Assign a list of columns in order. -/
def setCols (cs : List String) (new : List String) : List String :=
  new.foldl setCol cs

/-- `get_location_features(df)`: after the emptiness and required-column
checks, the source overwrites `df["timestamp"]` and assigns `x_cord`,
`y_cord`, `z_cord` directly on the caller's frame, and returns that same
frame. -/
def get_location_features_table (df : PTable) : PTable × Except String PTable :=
  if df.nrows = 0 then (df, .error "Empty dataframe provided")
  else if ¬ ("timestamp" ∈ df.cols ∧ "latitude" ∈ df.cols ∧ "longitude" ∈ df.cols) then
    (df, .error "column is missing")
  else
    let df1 := { df with
      tsParsed := true
      cols := setCols df.cols ["x_cord", "y_cord", "z_cord"] }
    (df1, .ok df1)

/-- `get_lag_and_roll_features(df, target_col, freq)` at the frame level: the
checks run first, `df["timestamp"] = pd.to_datetime(df["timestamp"])` hits the
caller's frame, and the feature columns are added to the fresh copy `df1`
only. -/
def get_lag_and_roll_features_table (df : PTable) (target_col : String)
    (freq : String) : PTable × Except String PTable :=
  if df.nrows = 0 then (df, .error "Empty dataframe provided")
  else if ¬ (target_col ∈ df.cols ∧ "timestamp" ∈ df.cols ∧ "device_id" ∈ df.cols) then
    (df, .error "Required columns missing")
  else
    let dfIn := { df with tsParsed := true }
    if freq = "daily" then
      (dfIn, .ok { dfIn with cols := setCols dfIn.cols (addedColNames .daily) })
    else if freq = "hourly" then
      (dfIn, .ok { dfIn with cols := setCols dfIn.cols (addedColNames .hourly) })
    else (dfIn, .error "Invalid frequency")

/-- The raw calendar attributes extracted by `get_time_features`. -/
def timeAttributes (freq : String) : List String :=
  if freq = "hourly" then ["year", "month", "day", "dayofweek", "hour"]
  else ["year", "month", "day", "dayofweek"]

/-- `get_time_features(df, freq)` at the frame level: the timestamp overwrite
hits the caller's frame (and precedes the frequency check); the attribute
columns and `week` are added to the fresh copy `df1`. -/
def get_time_features_table (df : PTable) (freq : String) :
    PTable × Except String PTable :=
  if df.nrows = 0 then (df, .error "Empty dataframe provided")
  else if ¬ ("timestamp" ∈ df.cols) then (df, .error "Required columns missing")
  else
    let dfIn := { df with tsParsed := true }
    if ¬ (freq = "daily" ∨ freq = "hourly") then (dfIn, .error "Invalid frequency")
    else (dfIn, .ok { dfIn with cols := setCols dfIn.cols (timeAttributes freq ++ ["week"]) })

/-- `get_cyclic_features(df, freq)` at the frame level: the sin/cos pairs are
added to the copy and the raw attribute columns are dropped from the copy. -/
def get_cyclic_features_table (df : PTable) (freq : String) :
    PTable × Except String PTable :=
  match get_time_features_table df freq with
  | (dfIn, .error e) => (dfIn, .error e)
  | (dfIn, .ok df1) =>
    let sincos := (timeAttributes freq).flatMap (fun a => [a ++ "_sin", a ++ "_cos"]) ++
      ["week_sin", "week_cos"]
    (dfIn, .ok { df1 with
      cols := (setCols df1.cols sincos).filter
        (fun c => ¬ (c ∈ timeAttributes freq ++ ["week"])) })

/-- `preprocess_data(data, data_frequency, job_type)` at the frame level: the
timestamp conversion (line 75) and both interpolation transforms (lines 85
and 95) assign into the caller's frame; the daily branch rebinds `data` to the
frame returned by `resample(...).mean(numeric_only=True).reset_index()`, whose
columns are the grouping key, `timestamp`, and the remaining numeric columns
(`numericCols` stands for the set of columns of numeric dtype); the final
`dropna` always returns a fresh frame. -/
def preprocess_data_table (df : PTable) (data_frequency job_type : String)
    (numericCols : List String) : PTable × Except String PTable :=
  if ¬ ("device_id" ∈ df.cols ∧ "pm2_5" ∈ df.cols ∧ "timestamp" ∈ df.cols) then
    (df, .error "Provided dataframe missing necessary columns")
  else
    let dfIn := { df with tsParsed := true, pm25Filled := true }
    if data_frequency = "daily" then
      (dfIn, .ok { cols := group_columns job_type ++ ["timestamp"] ++
                     (df.cols.filter (fun c =>
                       c ∈ numericCols ∧ ¬ (c ∈ group_columns job_type) ∧ c ≠ "timestamp")),
                   tsParsed := true, pm25Filled := true, nrows := df.nrows })
    else
      (dfIn, .ok dfIn)

/-- Modelled from the spec's words for comparison (§3: "Grouping key for
lag/rolling computation is ... `device_id + site_id` for inference/prediction
data"): the lag value row `i` would get if the shift were grouped by
`device_id` together with `site_id`. -/
def lagBySiteGroupSpec (df : List Row) (s i : Nat) : Option ℚ :=
  match df.get? i with
  | none => none
  | some r =>
    ((((df.take i).filter
        (fun x => x.device_id = r.device_id ∧ x.site_id = r.site_id)).reverse.get?
      (s - 1)).bind Row.pm2_5)

/-! ## Concrete instances used by the evaluations below -/

/-- An aggregation interpretation for concrete runs (the claims settled on
concrete inputs do not depend on the statistics' values). -/
def exAggs : String → List ℚ → Option ℚ := fun _ _ => some 0

/-- A model stub for concrete runs. -/
def exPredict : List FRow → ℚ := fun _ => 37

/-- A one-row seed frame: timestamp 100 (hours), pm2_5 = 10. -/
def exSeed : List FRow := [⟨100, 10, []⟩]

/-- A one-device series with missing values at the start and at the end. -/
def exGaps : List Row :=
  [⟨"d", "s", 0, none⟩, ⟨"d", "s", 1, some 1⟩, ⟨"d", "s", 2, some 3⟩,
   ⟨"d", "s", 3, none⟩]

/-- One device reporting through two sites. -/
def exTwoSites : List Row := [⟨"d", "s1", 0, some 5⟩, ⟨"d", "s2", 1, some 7⟩]

/-- Two interleaved devices. -/
def exInterleaved : List Row :=
  [⟨"d1", "s", 0, some 5⟩, ⟨"d2", "s", 1, some 6⟩, ⟨"d1", "s", 2, some 7⟩]

/-- A store holding one artifact at `bucket/hourly_forecast_model.pkl`. -/
def exStore : Store :=
  fun k => if k = "bucket/hourly_forecast_model.pkl" then some "model1" else none

/-- A forecast table with one device at two sites. -/
def exForecastTable : List FTableRow := [⟨"d", "s1", 0, 5⟩, ⟨"d", "s2", 1, 7⟩]

/-- A training table: one device seen in ten distinct months, a second device
in one month. -/
def exTraining : List TRow :=
  (List.range 10).map (fun m => ⟨"dev", m + 1⟩) ++ [⟨"dev2", 1⟩]

/-- A raw frame descriptor with the training input columns. -/
def exFrame : PTable :=
  ⟨["device_id", "site_id", "timestamp", "pm2_5", "latitude", "longitude"],
   false, false, 5⟩

/-- A one-document sink collection holding stale arrays. -/
def exColl : List MDoc :=
  [{ device_id := "d", site_id := "s1", pm2_5 := [9], timestamp := [9],
     created_at := "old" }]

/-- A freshly assembled forecast document for the same key. -/
def exDoc : ForecastDoc :=
  { device_id := "d", created_at := "ca", site_id := "s1", pm2_5 := [5, 7],
    timestamp := [0, 1] }

/-- The document as it stands after upserting `exDoc` over `exColl`. -/
def exMDoc : MDoc :=
  { device_id := "d", site_id := "s1", pm2_5 := [5, 7], timestamp := [0, 1],
    created_at := "ca" }

/-- A one-row observation table whose pm2_5 is present. -/
def exObs : List Row := [⟨"d", "s", 1, some 1⟩]

/-- The `months` list of the split loop for one device: the device's distinct
`dt.month` values in first-seen order. -/
def deviceMonths (rows : List TRow) (d : String) : List Nat :=
  uniqueFirstSeen ((rows.filter (fun r => r.device_id = d)).map TRow.month)

/-- One device's contribution to a split table: the device's rows whose month
lies in the given month list. -/
def devicePart (rows : List TRow) (d : String) (ms : List Nat) : List TRow :=
  (rows.filter (fun r => r.device_id = d)).filter (fun r => r.month ∈ ms)

/-! ## Theorems for the claims -/

/-- C1: at a daily-frequency seed of one row with timestamp 100 and horizon 2,
the engine does return `horizon` rows, but their timestamps both equal the
seed's last timestamp instead of advancing by one day per step: the daily
timestamp update is a pandas chained assignment through the copy returned by
`tail(1)` and never reaches `df_tmp`.  The hourly branch, whose update is a
direct `iloc` write, does advance by one hour per step. -/
theorem forecast_hourly_advances_daily_stalls :
    (get_forecasts exAggs exPredict .daily 2 exSeed).length = 2 ∧
    (get_forecasts exAggs exPredict .daily 2 exSeed).map FRow.timestamp = [100, 100] ∧
    (get_forecasts exAggs exPredict .hourly 2 exSeed).map FRow.timestamp = [101, 102] := by
  refine ⟨rfl, rfl, rfl⟩

/-- C10: every row of the table returned by `preprocess_data` carries a
non-missing pm2_5 value — the final `dropna(subset=["pm2_5"])` removes every
row whose pm2_5 is still missing after the per-group interpolation passes. -/
theorem preprocess_output_target_present (data : List Row)
    (data_frequency job_type : String) (r : Row)
    (hr : r ∈ preprocess_data data data_frequency job_type) :
    r.pm2_5.isSome = true := by
  unfold preprocess_data at hr
  simpa using (List.mem_filter.mp hr).2

/-- Witness for C10 at a concrete input. -/
theorem preprocess_output_target_present_witness :
    (Row.pm2_5 ⟨"d", "s", 1, some 1⟩).isSome = true :=
  preprocess_output_target_present exObs "hourly" "train" ⟨"d", "s", 1, some 1⟩
    (by decide)

/-- C4 counterexample: after `upload_trained_model_to_gcs` over an existing
artifact, the key the claim names — `model_key + "-" + timestamp` — holds
nothing, while the backed-up artifact sits at `timestamp + "-" + model_key`:
the source prepends `datetime.now()` to the blob name. -/
theorem backup_key_timestamp_first :
    upload_trained_model_to_gcs exStore "2023-01-01 00:00:00" "model2" "bucket"
      "hourly_forecast_model.pkl"
      ("bucket/" ++ "hourly_forecast_model.pkl" ++ "-" ++ "2023-01-01 00:00:00") = none ∧
    upload_trained_model_to_gcs exStore "2023-01-01 00:00:00" "model2" "bucket"
      "hourly_forecast_model.pkl"
      ("bucket/" ++ "2023-01-01 00:00:00" ++ "-" ++ "hourly_forecast_model.pkl") =
      some "model1" := by
  refine ⟨rfl, rfl⟩

/-- C4 amended: when an artifact exists at the key it is renamed to
`current_timestamp + "-" + model_key` (timestamp prepended), a missing
artifact is not an error (the store is left untouched apart from the write),
and the new artifact is always written at the original key, so a subsequent
load returns it. -/
theorem upload_backs_up_then_writes (store : Store)
    (now trained_model bucket_name source_blob_name : String)
    (hb : backupPath bucket_name now source_blob_name ≠
      bucket_name ++ "/" ++ source_blob_name) :
    get_trained_model_from_gcs
      (upload_trained_model_to_gcs store now trained_model bucket_name source_blob_name)
      bucket_name source_blob_name = some trained_model ∧
    (∀ old, store (bucket_name ++ "/" ++ source_blob_name) = some old →
      upload_trained_model_to_gcs store now trained_model bucket_name source_blob_name
        (backupPath bucket_name now source_blob_name) = some old) ∧
    (store (bucket_name ++ "/" ++ source_blob_name) = none →
      ∀ k, k ≠ bucket_name ++ "/" ++ source_blob_name →
        upload_trained_model_to_gcs store now trained_model bucket_name source_blob_name k =
          store k) := by
  unfold get_trained_model_from_gcs upload_trained_model_to_gcs
  refine ⟨by simp, ?_, ?_⟩
  · intro old hold
    rw [hold]
    simp [hb]
  · intro hnone k hk
    rw [hnone]
    simp [hk]

/-- Witness for the C4 amended theorem at a concrete store. -/
theorem upload_backs_up_then_writes_witness :
    get_trained_model_from_gcs
      (upload_trained_model_to_gcs exStore "2023-01-01 00:00:00" "model2" "bucket"
        "hourly_forecast_model.pkl") "bucket" "hourly_forecast_model.pkl" =
      some "model2" :=
  (upload_backs_up_then_writes exStore "2023-01-01 00:00:00" "model2" "bucket"
    "hourly_forecast_model.pkl" (by decide)).1

/-- C5 counterexample: on a prediction-shaped table where one device reports
through two sites, the lag-1 value computed by the lag/rolling grouping (which
is `groupby(["device_id"])` regardless of job type) reaches across sites: row
1 (site s2) receives the pm2_5 of row 0 (site s1).  Under the grouping the
claim states for prediction data — device_id together with site_id — the value
would be missing. -/
theorem lag_features_cross_site_groups :
    groupShiftVal exTwoSites 1 1 = some 5 ∧
    lagBySiteGroupSpec exTwoSites 1 1 = none ∧
    groupShiftVal exTwoSites 1 1 ≠ lagBySiteGroupSpec exTwoSites 1 1 := by
  refine ⟨rfl, rfl, by decide⟩

/-- C5 amended: the device-and-site grouping applies only to the interpolation
in `preprocess_data` (whose grouping columns are `device_id, site_id` for
prediction jobs and `device_id` for training jobs); the lag/rolling shift of
`get_lag_and_roll_features` always groups by `device_id` alone — its value is
invariant under arbitrary rewrites of every row's `site_id`. -/
theorem grouping_keys_amended :
    group_columns "prediction" = ["device_id", "site_id"] ∧
    group_columns "train" = ["device_id"] ∧
    (∀ (df : List Row) (f : Row → String) (s i : Nat),
      groupShiftVal (df.map (fun r => { r with site_id := f r })) s i =
        groupShiftVal df s i) := by
  refine ⟨rfl, rfl, ?_⟩
  intro df f s i
  unfold groupShiftVal groupPriors
  rw [List.get?_map]
  cases hget : df.get? i with
  | none => rfl
  | some r =>
    simp only [Option.map_some']
    rw [← List.map_take, List.filter_map]
    have hfil : (List.filter ((fun x => decide (x.device_id = r.device_id)) ∘
        (fun r => { r with site_id := f r })) (df.take i)) =
        (df.take i).filter (fun x => decide (x.device_id = r.device_id)) := by
      rfl
    rw [hfil, ← List.map_reverse, List.get?_map]
    cases hget2 : ((df.take i).filter
        (fun x => decide (x.device_id = r.device_id))).reverse.get? (s - 1) with
    | none => rfl
    | some x => rfl

/-- C7 counterexample: for a forecast table where one device reports through
two sites, `save_forecasts_to_mongo` assembles a single document — keyed by
the device and its first site — whose arrays mix both sites' rows, instead of
one document per `(device_id, site_id)` pair. -/
theorem one_doc_per_device_not_per_pair :
    (forecast_results exForecastTable "ca").length = 1 ∧
    forecast_results exForecastTable "ca" =
      [{ device_id := "d", created_at := "ca", site_id := "s1",
         pm2_5 := [5, 7], timestamp := [0, 1] }] := by
  refine ⟨rfl, rfl⟩

/-- Skipping failing iterations of a fold is folding over the survivors. -/
theorem foldl_skip_eq_foldl_filter {α β : Type} (l : List α) (fails : α → Bool)
    (f : β → α → β) (b : β) :
    l.foldl (fun c x => if fails x then c else f c x) b =
      (l.filter (fun x => !fails x)).foldl f b := by
  induction l generalizing b with
  | nil => rfl
  | cons x xs ih =>
    by_cases h : fails x = true <;> simp [h, ih]

/-- Unfolding `update_one` on the empty collection. -/
theorem update_one_nil (doc : ForecastDoc) :
    update_one [] doc =
      [{ device_id := doc.device_id, site_id := doc.site_id, pm2_5 := doc.pm2_5,
         timestamp := doc.timestamp, created_at := doc.created_at }] := rfl

/-- Unfolding `update_one` on a non-empty collection. -/
theorem update_one_cons (m : MDoc) (rest : List MDoc) (doc : ForecastDoc) :
    update_one (m :: rest) doc =
      if m.device_id = doc.device_id ∧ m.site_id = doc.site_id then
        { m with pm2_5 := doc.pm2_5, timestamp := doc.timestamp,
                 created_at := doc.created_at } :: rest
      else m :: update_one rest doc := rfl

/-- C7 amended: the sink writes one upserted document per unique `device_id`
(its `site_id` is the device's first site and its arrays collect every row of
the device across all its sites); each upsert, keyed by `{device_id,
site_id}`, wholesale-replaces the `pm2_5`, `timestamp` and `created_at`
fields — after an upsert a document carrying exactly the new payload is
present, and every document either was already in the collection or carries
exactly the new payload (no merge or append of prior arrays); a per-record
failure is skipped and the remaining records are still processed. -/
theorem forecast_sink_amended :
    (∀ (data : List FTableRow) (ca : String),
      (forecast_results data ca).map ForecastDoc.device_id =
        uniqueFirstSeen (data.map FTableRow.device_id)) ∧
    (∀ (data : List FTableRow) (ca : String) (coll : List MDoc)
        (fails : ForecastDoc → Bool),
      save_forecasts_to_mongo data ca coll fails =
        ((forecast_results data ca).filter (fun doc => !fails doc)).foldl
          update_one coll) ∧
    (∀ (coll : List MDoc) (doc : ForecastDoc),
      ∃ m ∈ update_one coll doc, m.device_id = doc.device_id ∧
        m.site_id = doc.site_id ∧ m.pm2_5 = doc.pm2_5 ∧
        m.timestamp = doc.timestamp ∧ m.created_at = doc.created_at) ∧
    (∀ (coll : List MDoc) (doc : ForecastDoc) (m : MDoc),
      m ∈ update_one coll doc → m ∈ coll ∨
        (m.pm2_5 = doc.pm2_5 ∧ m.timestamp = doc.timestamp ∧
          m.created_at = doc.created_at)) := by
  refine ⟨?_, ?_, ?_, ?_⟩
  · intro data ca
    unfold forecast_results
    rw [List.map_map]
    exact List.map_id _
  · intro data ca coll fails
    unfold save_forecasts_to_mongo
    exact foldl_skip_eq_foldl_filter _ _ _ _
  · intro coll doc
    induction coll with
    | nil =>
      rw [update_one_nil]
      exact ⟨_, List.mem_singleton_self _, rfl, rfl, rfl, rfl, rfl⟩
    | cons m rest ih =>
      rw [update_one_cons]
      by_cases h : m.device_id = doc.device_id ∧ m.site_id = doc.site_id
      · rw [if_pos h]
        exact ⟨_, List.mem_cons_self _ _, h.1, h.2, rfl, rfl, rfl⟩
      · rw [if_neg h]
        obtain ⟨x, hx, hprops⟩ := ih
        exact ⟨x, List.mem_cons_of_mem _ hx, hprops⟩
  · intro coll doc m
    induction coll with
    | nil =>
      intro hm
      rw [update_one_nil] at hm
      rcases List.mem_singleton.mp hm with rfl
      exact Or.inr ⟨rfl, rfl, rfl⟩
    | cons m0 rest ih =>
      intro hm
      rw [update_one_cons] at hm
      by_cases h : m0.device_id = doc.device_id ∧ m0.site_id = doc.site_id
      · rw [if_pos h] at hm
        rcases List.mem_cons.mp hm with rfl | hrest
        · exact Or.inr ⟨rfl, rfl, rfl⟩
        · exact Or.inl (List.mem_cons_of_mem _ hrest)
      · rw [if_neg h] at hm
        rcases List.mem_cons.mp hm with rfl | hrest
        · exact Or.inl (List.mem_cons_self _ _)
        · rcases ih hrest with hin | hpayload
          · exact Or.inl (List.mem_cons_of_mem _ hin)
          · exact Or.inr hpayload

/-- Witness for the C7 amended theorem: the membership hypothesis discharged
at a concrete collection and document. -/
theorem forecast_sink_amended_witness :
    exMDoc ∈ exColl ∨
      (exMDoc.pm2_5 = exDoc.pm2_5 ∧ exMDoc.timestamp = exDoc.timestamp ∧
        exMDoc.created_at = exDoc.created_at) :=
  forecast_sink_amended.2.2.2 exColl exDoc exMDoc (by decide)

/-- C9 counterexample: `get_location_features` is not pure in the frame sense
— after the call the caller's input table has gained the `x_cord` column (and
`y_cord`, `z_cord`, and a retyped `timestamp`): the source assigns the new
columns directly on the input frame and returns it. -/
theorem location_features_mutate_input :
    (get_location_features_table exFrame).1 ≠ exFrame ∧
    "x_cord" ∈ (get_location_features_table exFrame).1.cols ∧
    ¬ ("x_cord" ∈ exFrame.cols) := by
  refine ⟨by decide, by decide, by decide⟩

/-- C9 amended: the feature operations perform no I/O but several mutate the
caller's table: `get_location_features` retypes `timestamp` and appends
`x_cord`, `y_cord`, `z_cord` on the caller's frame and returns that same
frame; `get_lag_and_roll_features` retypes the caller's `timestamp` column in
place but adds its feature columns only to a fresh copy of the input; and
`preprocess_data` overwrites the caller's `timestamp` and `pm2_5` columns in
place. -/
theorem feature_ops_frame_effects_amended :
    (∀ df : PTable, df.nrows ≠ 0 → "timestamp" ∈ df.cols → "latitude" ∈ df.cols →
      "longitude" ∈ df.cols →
      (get_location_features_table df).1 =
        { df with tsParsed := true,
                  cols := setCols df.cols ["x_cord", "y_cord", "z_cord"] } ∧
      (get_location_features_table df).2 = .ok (get_location_features_table df).1) ∧
    (∀ (df : PTable) (tc : String), df.nrows ≠ 0 → tc ∈ df.cols →
      "timestamp" ∈ df.cols → "device_id" ∈ df.cols →
      (get_lag_and_roll_features_table df tc "hourly").1 = { df with tsParsed := true } ∧
      (get_lag_and_roll_features_table df tc "hourly").2 =
        .ok { df with tsParsed := true,
                      cols := setCols df.cols (addedColNames .hourly) }) ∧
    (∀ (df : PTable) (data_frequency job_type : String) (numericCols : List String),
      "device_id" ∈ df.cols → "pm2_5" ∈ df.cols → "timestamp" ∈ df.cols →
      (preprocess_data_table df data_frequency job_type numericCols).1 =
        { df with tsParsed := true, pm25Filled := true }) := by
  refine ⟨?_, ?_, ?_⟩
  · intro df h0 ht hla hlo
    unfold get_location_features_table
    rw [if_neg h0, if_neg (by simp [ht, hla, hlo])]
    exact ⟨rfl, rfl⟩
  · intro df tc h0 htc ht hd
    unfold get_lag_and_roll_features_table
    rw [if_neg h0, if_neg (by simp [htc, ht, hd])]
    simp
  · intro df data_frequency job_type numericCols hd hp ht
    unfold preprocess_data_table
    rw [if_neg (by simp [hd, hp, ht])]
    by_cases hf : data_frequency = "daily" <;> simp [hf]

/-- Witness for the C9 amended theorem at a concrete frame. -/
theorem feature_ops_frame_effects_amended_witness :
    (preprocess_data_table exFrame "hourly" "train" ["pm2_5"]).1 =
      { exFrame with tsParsed := true, pm25Filled := true } :=
  feature_ops_frame_effects_amended.2.2 exFrame "hourly" "train" ["pm2_5"]
    (by decide) (by decide) (by decide)

/-- The group shift at a position at or before the modified row does not
depend on the modified row's pm2_5 value. -/
theorem groupShiftVal_pm_irrelevant (pre post : List Row) (r : Row) (v : Option ℚ)
    (s m : Nat) (hm : m ≤ pre.length) :
    groupShiftVal (pre ++ { r with pm2_5 := v } :: post) s m =
      groupShiftVal (pre ++ r :: post) s m := by
  unfold groupShiftVal groupPriors
  rcases Nat.lt_or_ge m pre.length with hlt | hge
  · rw [List.get?_append hlt, List.get?_append hlt]
    cases hg : pre.get? m with
    | none => rfl
    | some x =>
      rw [List.take_append_of_le_length (le_of_lt hlt),
        List.take_append_of_le_length (le_of_lt hlt)]
  · have heq : m = pre.length := le_antisymm hm hge
    subst heq
    have h1 : (pre ++ { r with pm2_5 := v } :: post).get? pre.length =
        some { r with pm2_5 := v } := by
      rw [List.get?_append_right (le_refl _)]
      simp
    have h2 : (pre ++ r :: post).get? pre.length = some r := by
      rw [List.get?_append_right (le_refl _)]
      simp
    rw [h1, h2]
    rw [List.take_append_of_le_length (le_refl _),
      List.take_append_of_le_length (le_refl _)]

/-- Window-entry congruence for the training-side rolling value. -/
theorem rollingVal_congr (df1 df2 : List Row) (w i : Nat) (g : List ℚ → Option ℚ)
    (h : ∀ j, j < w →
      groupShiftVal df1 1 (i + 1 - w + j) = groupShiftVal df2 1 (i + 1 - w + j)) :
    rollingVal df1 w g i = rollingVal df2 w g i := by
  unfold rollingVal
  have hmap : (List.range w).map (fun j => groupShiftVal df1 1 (i + 1 - w + j)) =
      (List.range w).map (fun j => groupShiftVal df2 1 (i + 1 - w + j)) :=
    List.map_congr_left (fun j hj => h j (List.mem_range.mp hj))
  rw [hmap]

/-- Window-entry congruence for the forecast-loop rolling value. -/
theorem forecastRollingVal_congr (pms1 pms2 : List ℚ) (w i : Nat)
    (g : List ℚ → Option ℚ)
    (h : ∀ j, j < w → plainShift pms1 (w - j) i = plainShift pms2 (w - j) i) :
    forecastRollingVal pms1 w g i = forecastRollingVal pms2 w g i := by
  unfold forecastRollingVal
  have hmap : (List.range w).map (fun j => plainShift pms1 (w - j) i) =
      (List.range w).map (fun j => plainShift pms2 (w - j) i) :=
    List.map_congr_left (fun j hj => h j (List.mem_range.mp hj))
  rw [hmap]

/-- C2: no self-leakage, as a two-run statement.  Changing the target value
of row `t` while holding every earlier row (and every later row) fixed leaves
row `t`'s rolling-aggregate features unchanged, for every window size and
every aggregation function — both for the training-side computation
(`groupby(...).shift(1).rolling(w).agg(f)`) and for the computation performed
at each iteration of the recursive forecast loop
(`df_tmp_no_ts.shift(1).rolling(w).agg(f)`).  The modified row sits at
position `pre.length`. -/
theorem rolling_features_ignore_current_target :
    (∀ (pre post : List Row) (r : Row) (v : Option ℚ) (w : Nat)
        (g : List ℚ → Option ℚ),
      rollingVal (pre ++ { r with pm2_5 := v } :: post) w g pre.length =
        rollingVal (pre ++ r :: post) w g pre.length) ∧
    (∀ (pre post : List ℚ) (x y : ℚ) (w : Nat) (g : List ℚ → Option ℚ),
      forecastRollingVal (pre ++ x :: post) w g pre.length =
        forecastRollingVal (pre ++ y :: post) w g pre.length) := by
  constructor
  · intro pre post r v w g
    by_cases hw : w ≤ pre.length + 1
    · apply rollingVal_congr
      intro j hj
      exact groupShiftVal_pm_irrelevant pre post r v 1 _ (by omega)
    · simp [rollingVal, hw]
  · intro pre post x y w g
    apply forecastRollingVal_congr
    intro j hj
    unfold plainShift
    by_cases hs : w - j ≤ pre.length
    · rw [if_pos hs, if_pos hs]
      have hlt : pre.length - (w - j) < pre.length := by omega
      rw [List.get?_append hlt, List.get?_append hlt]
    · rw [if_neg hs, if_neg hs]

/-- C3: the lag/rolling column vocabulary is fixed per frequency (hourly:
lags {1,2,6,12}, windows {3,6,12,24} with {mean,std,median,skew}; daily: lags
{1,2,3,7}, windows {2,3,7} with {mean,std,max,min}), the columns
`get_lag_and_roll_features` adds are exactly these, and the lag-k value at a
row is the target of the row k positions earlier among the same device's rows
(missing when fewer than k prior rows exist in the device's group). -/
theorem lag_roll_vocabulary_and_lag_semantics :
    (∀ (df : List Row) (freq : Freq) (aggs : String → List ℚ → Option ℚ),
      (get_lag_and_roll_features df freq aggs).map Prod.fst = addedColNames freq) ∧
    addedColNames .hourly =
      ["pm2_5_last_1_hour", "pm2_5_last_2_hour", "pm2_5_last_6_hour",
       "pm2_5_last_12_hour",
       "pm2_5_mean_3_hour", "pm2_5_std_3_hour", "pm2_5_median_3_hour",
       "pm2_5_skew_3_hour",
       "pm2_5_mean_6_hour", "pm2_5_std_6_hour", "pm2_5_median_6_hour",
       "pm2_5_skew_6_hour",
       "pm2_5_mean_12_hour", "pm2_5_std_12_hour", "pm2_5_median_12_hour",
       "pm2_5_skew_12_hour",
       "pm2_5_mean_24_hour", "pm2_5_std_24_hour", "pm2_5_median_24_hour",
       "pm2_5_skew_24_hour"] ∧
    addedColNames .daily =
      ["pm2_5_last_1_day", "pm2_5_last_2_day", "pm2_5_last_3_day",
       "pm2_5_last_7_day",
       "pm2_5_mean_2_day", "pm2_5_std_2_day", "pm2_5_max_2_day",
       "pm2_5_min_2_day",
       "pm2_5_mean_3_day", "pm2_5_std_3_day", "pm2_5_max_3_day",
       "pm2_5_min_3_day",
       "pm2_5_mean_7_day", "pm2_5_std_7_day", "pm2_5_max_7_day",
       "pm2_5_min_7_day"] ∧
    (∀ (df : List Row) (k i : Nat), 1 ≤ k →
      groupShiftVal df k i =
        if k ≤ (groupPriors df i).length then
          ((groupPriors df i).get? ((groupPriors df i).length - k)).bind Row.pm2_5
        else none) := by
  refine ⟨?_, by decide, by decide, ?_⟩
  · intro df freq aggs
    have h1 : (Prod.fst ∘ fun s => (lagName freq s, lagCol df s)) = lagName freq := rfl
    have h2 : ∀ a, (Prod.fst ∘ fun f => (rollName freq a f, rollCol df a aggs f)) =
        rollName freq a := fun a => rfl
    simp [get_lag_and_roll_features, addedColNames, List.map_flatMap, h1, h2]
  · intro df k i hk
    unfold groupShiftVal
    by_cases h : k ≤ (groupPriors df i).length
    · rw [if_pos h]
      have hlt : k - 1 < (groupPriors df i).length := by omega
      rw [List.get?_reverse hlt]
      have harith : (groupPriors df i).length - 1 - (k - 1) =
          (groupPriors df i).length - k := by omega
      rw [harith]
    · rw [if_neg h]
      have hnone : (groupPriors df i).reverse.get? (k - 1) = none :=
        List.get?_eq_none.mpr (by rw [List.length_reverse]; omega)
      rw [hnone]
      rfl

/-- Witness for C3: the lag-semantics hypothesis discharged on an interleaved
two-device table. -/
theorem lag_roll_vocabulary_and_lag_semantics_witness :
    groupShiftVal exInterleaved 1 2 =
      if 1 ≤ (groupPriors exInterleaved 2).length then
        ((groupPriors exInterleaved 2).get?
          ((groupPriors exInterleaved 2).length - 1)).bind Row.pm2_5
      else none :=
  lag_roll_vocabulary_and_lag_semantics.2.2.2 exInterleaved 1 2 (by decide)

/-- Membership in the deduplication helper. -/
theorem mem_uniqueFirstSeenAux {α : Type} [DecidableEq α] :
    ∀ (l : List α) (seen : List α) (a : α),
      a ∈ uniqueFirstSeenAux seen l ↔ a ∈ l ∧ ¬ a ∈ seen := by
  intro l
  induction l with
  | nil => intro seen a; simp [uniqueFirstSeenAux]
  | cons x xs ih =>
    intro seen a
    by_cases hx : x ∈ seen
    · rw [uniqueFirstSeenAux, if_pos hx, ih]
      constructor
      · rintro ⟨h1, h2⟩
        exact ⟨List.mem_cons_of_mem _ h1, h2⟩
      · rintro ⟨h1, h2⟩
        rcases List.mem_cons.mp h1 with rfl | h1
        · exact absurd hx h2
        · exact ⟨h1, h2⟩
    · rw [uniqueFirstSeenAux, if_neg hx]
      constructor
      · intro h
        rcases List.mem_cons.mp h with rfl | h1
        · exact ⟨List.mem_cons_self _ _, hx⟩
        · rcases (ih _ _).mp h1 with ⟨h2, h3⟩
          refine ⟨List.mem_cons_of_mem _ h2, fun hc => h3 (List.mem_cons_of_mem _ hc)⟩
      · rintro ⟨h1, h2⟩
        rcases List.mem_cons.mp h1 with rfl | h1
        · exact List.mem_cons_self _ _
        · by_cases hax : a = x
          · subst hax; exact List.mem_cons_self _ _
          · refine List.mem_cons_of_mem _ ((ih _ _).mpr ⟨h1, ?_⟩)
            intro hc
            rcases List.mem_cons.mp hc with h | h
            · exact hax h
            · exact h2 h

/-- `uniqueFirstSeen` keeps exactly the elements of the list. -/
theorem mem_uniqueFirstSeen {α : Type} [DecidableEq α] (l : List α) (a : α) :
    a ∈ uniqueFirstSeen l ↔ a ∈ l := by
  rw [uniqueFirstSeen, mem_uniqueFirstSeenAux]
  simp

/-- The deduplication helper returns a duplicate-free list. -/
theorem nodup_uniqueFirstSeenAux {α : Type} [DecidableEq α] :
    ∀ (l : List α) (seen : List α), (uniqueFirstSeenAux seen l).Nodup := by
  intro l
  induction l with
  | nil => intro seen; simp [uniqueFirstSeenAux]
  | cons x xs ih =>
    intro seen
    by_cases hx : x ∈ seen
    · rw [uniqueFirstSeenAux, if_pos hx]; exact ih seen
    · rw [uniqueFirstSeenAux, if_neg hx]
      refine List.nodup_cons.mpr ⟨?_, ih _⟩
      intro hc
      exact ((mem_uniqueFirstSeenAux _ _ _).mp hc).2 (List.mem_cons_self _ _)

/-- `uniqueFirstSeen` returns a duplicate-free list. -/
theorem nodup_uniqueFirstSeen {α : Type} [DecidableEq α] (l : List α) :
    (uniqueFirstSeen l).Nodup :=
  nodup_uniqueFirstSeenAux l []

/-- The split's fold, described per device. -/
theorem split_foldl_spec (rows : List TRow) :
    ∀ (devs : List String) (a b c : List TRow),
      devs.foldl (fun acc device =>
        let device_df := rows.filter (fun r => r.device_id = device)
        let months := uniqueFirstSeen (device_df.map TRow.month)
        let train_months := months.take 8
        let val_months := (months.drop 8).take 1
        let test_months := months.drop 9
        (acc.1 ++ device_df.filter (fun r => r.month ∈ train_months),
         acc.2.1 ++ device_df.filter (fun r => r.month ∈ val_months),
         acc.2.2 ++ device_df.filter (fun r => r.month ∈ test_months))) (a, b, c) =
      (a ++ devs.flatMap (fun d => devicePart rows d ((deviceMonths rows d).take 8)),
       b ++ devs.flatMap (fun d =>
         devicePart rows d (((deviceMonths rows d).drop 8).take 1)),
       c ++ devs.flatMap (fun d => devicePart rows d ((deviceMonths rows d).drop 9))) := by
  intro devs
  induction devs with
  | nil => intro a b c; simp
  | cons x xs ih =>
    intro a b c
    rw [List.foldl_cons, ih]
    simp [devicePart, deviceMonths, List.append_assoc]

/-- Rows of a device absent from the device list contribute nothing. -/
theorem filter_device_flatMap_not_mem (part : String → List TRow)
    (hpart : ∀ dev r, r ∈ part dev → r.device_id = dev) (d : String) :
    ∀ devs : List String, ¬ d ∈ devs →
      (devs.flatMap part).filter (fun r => r.device_id = d) = [] := by
  intro devs
  induction devs with
  | nil => intro; rfl
  | cons x xs ih =>
    intro hd
    rw [List.flatMap_cons, List.filter_append]
    have h1 : (part x).filter (fun r => r.device_id = d) = [] := by
      apply List.filter_eq_nil.mpr
      intro r hr
      have := hpart x r hr
      simp only [this]
      intro hc
      exact hd (by simp [← (by exact of_decide_eq_true hc : x = d)])
    rw [h1, ih (fun hc => hd (List.mem_cons_of_mem _ hc))]
    rfl

/-- Filtering the concatenated per-device parts for one device returns that
device's part. -/
theorem filter_device_flatMap (part : String → List TRow)
    (hpart : ∀ dev r, r ∈ part dev → r.device_id = dev) (d : String) :
    ∀ devs : List String, devs.Nodup → d ∈ devs →
      (devs.flatMap part).filter (fun r => r.device_id = d) = part d := by
  intro devs
  induction devs with
  | nil => intro _ h; exact absurd h (List.not_mem_nil d)
  | cons x xs ih =>
    intro hnd hd
    rcases List.nodup_cons.mp hnd with ⟨hx, hxs⟩
    rw [List.flatMap_cons, List.filter_append]
    rcases List.mem_cons.mp hd with rfl | hdxs
    · have h1 : (part d).filter (fun r => r.device_id = d) = part d := by
        apply List.filter_eq_self.mpr
        intro r hr
        simp [hpart d r hr]
      rw [h1, filter_device_flatMap_not_mem part hpart d xs hx, List.append_nil]
    · have hdx : d ≠ x := fun hc => hx (hc ▸ hdxs)
      have h1 : (part x).filter (fun r => r.device_id = d) = [] := by
        apply List.filter_eq_nil.mpr
        intro r hr
        have := hpart x r hr
        simp only [this]
        exact fun hc => hdx ((of_decide_eq_true hc).symm)
      rw [h1, ih hxs hdxs]
      rfl

/-- C6: per device, the split partitions the device's distinct `dt.month`
values (in first-seen order) into the first 8 (train), the 9th (validation)
and the rest (test); a device with exactly 10 distinct months contributes
8/1/1 of them; a device with fewer than 9 distinct months has empty
validation and test month lists (no error is possible — the split is a total
function); and each global table restricted to the device holds exactly the
device's rows whose month falls in the corresponding list. -/
theorem temporal_split_months (rows : List TRow) (d : String) :
    (deviceMonths rows d).take 8 ++ ((deviceMonths rows d).drop 8).take 1 ++
      (deviceMonths rows d).drop 9 = deviceMonths rows d ∧
    ((deviceMonths rows d).length = 10 →
      ((deviceMonths rows d).take 8).length = 8 ∧
      (((deviceMonths rows d).drop 8).take 1).length = 1 ∧
      ((deviceMonths rows d).drop 9).length = 1) ∧
    ((deviceMonths rows d).length < 9 →
      ((deviceMonths rows d).drop 8).take 1 = [] ∧
      (deviceMonths rows d).drop 9 = []) ∧
    (train_val_test_split rows).1.filter (fun r => r.device_id = d) =
      devicePart rows d ((deviceMonths rows d).take 8) ∧
    (train_val_test_split rows).2.1.filter (fun r => r.device_id = d) =
      devicePart rows d (((deviceMonths rows d).drop 8).take 1) ∧
    (train_val_test_split rows).2.2.filter (fun r => r.device_id = d) =
      devicePart rows d ((deviceMonths rows d).drop 9) := by
  have hsplit : train_val_test_split rows =
      ((uniqueFirstSeen (rows.map TRow.device_id)).flatMap
         (fun dev => devicePart rows dev ((deviceMonths rows dev).take 8)),
       (uniqueFirstSeen (rows.map TRow.device_id)).flatMap
         (fun dev => devicePart rows dev (((deviceMonths rows dev).drop 8).take 1)),
       (uniqueFirstSeen (rows.map TRow.device_id)).flatMap
         (fun dev => devicePart rows dev ((deviceMonths rows dev).drop 9))) := by
    unfold train_val_test_split
    rw [split_foldl_spec]
    rfl
  have hpart : ∀ (ms : String → List Nat) (dev : String) (r : TRow),
      r ∈ devicePart rows dev (ms dev) → r.device_id = dev := by
    intro ms dev r hr
    have h1 := (List.mem_filter.mp hr).1
    exact of_decide_eq_true (List.mem_filter.mp h1).2
  have hempty : ¬ d ∈ rows.map TRow.device_id →
      ∀ ms : List Nat, devicePart rows d ms = [] := by
    intro hd ms
    unfold devicePart
    have hnil : rows.filter (fun r => r.device_id = d) = [] := by
      apply List.filter_eq_nil.mpr
      intro r hr hc
      exact hd (List.mem_map.mpr ⟨r, hr, of_decide_eq_true hc⟩)
    rw [hnil]
    rfl
  have hmain : ∀ ms : String → List Nat,
      ((uniqueFirstSeen (rows.map TRow.device_id)).flatMap
        (fun dev => devicePart rows dev (ms dev))).filter
          (fun r => r.device_id = d) = devicePart rows d (ms d) := by
    intro ms
    by_cases hd : d ∈ rows.map TRow.device_id
    · exact filter_device_flatMap _ (hpart ms) d _ (nodup_uniqueFirstSeen _)
        ((mem_uniqueFirstSeen _ _).mpr hd)
    · rw [filter_device_flatMap_not_mem _ (hpart ms) d _
        (fun hc => hd ((mem_uniqueFirstSeen _ _).mp hc)), hempty hd]
  refine ⟨?_, ?_, ?_, ?_, ?_, ?_⟩
  · rw [List.append_assoc]
    have h9 : (deviceMonths rows d).drop 9 = ((deviceMonths rows d).drop 8).drop 1 := by
      rw [List.drop_drop]
    rw [h9, List.take_append_drop, List.take_append_drop]
  · intro h10
    refine ⟨?_, ?_, ?_⟩ <;>
      simp only [List.length_take, List.length_drop, h10] <;> omega
  · intro hlt
    have h8 : (deviceMonths rows d).drop 8 = [] :=
      List.drop_eq_nil_of_le (by omega)
    constructor
    · rw [h8]; rfl
    · exact List.drop_eq_nil_of_le (by omega)
  · rw [hsplit]
    exact hmain (fun dev => (deviceMonths rows dev).take 8)
  · rw [hsplit]
    exact hmain (fun dev => ((deviceMonths rows dev).drop 8).take 1)
  · rw [hsplit]
    exact hmain (fun dev => (deviceMonths rows dev).drop 9)

/-- Witness for C6: a device with ten distinct months contributes 8 train
months, 1 validation month and 1 test month. -/
theorem temporal_split_months_witness :
    ((deviceMonths exTraining "dev").take 8).length = 8 ∧
    (((deviceMonths exTraining "dev").drop 8).take 1).length = 1 ∧
    ((deviceMonths exTraining "dev").drop 9).length = 1 :=
  (temporal_split_months exTraining "dev").2.1 (by decide)

/-- A pair of the enumeration points back into the list. -/
theorem get?_of_mem_enum {α : Type} {l : List α} {p : Nat × α} (h : p ∈ l.enum) :
    l.get? p.1 = some p.2 := by
  rcases List.mem_iff_get?.mp h with ⟨n, hn⟩
  rw [List.get?_enum] at hn
  cases hl : l.get? n with
  | none => rw [hl] at hn; exact absurd hn (by simp)
  | some a =>
    rw [hl] at hn
    have : (n, a) = p := by simpa using hn
    rw [← this]
    exact hl

/-- An element with index below `i` appears in the enumeration of the
prefix. -/
theorem mem_enum_take {α : Type} {l : List α} {m i : Nat} {v : α}
    (hm : m < i) (hv : l.get? m = some v) : (m, v) ∈ (l.take i).enum := by
  apply List.mem_iff_get?.mpr
  refine ⟨m, ?_⟩
  rw [List.get?_enum, List.get?_take hm, hv]
  rfl

/-- An element with index above `i` appears in the dropped enumeration. -/
theorem mem_enum_drop {α : Type} {l : List α} {m i : Nat} {v : α}
    (hm : i < m) (hv : l.get? m = some v) : (m, v) ∈ l.enum.drop (i + 1) := by
  apply List.mem_iff_get?.mpr
  refine ⟨m - (i + 1), ?_⟩
  rw [List.get?_drop, List.get?_enum]
  have harith : i + 1 + (m - (i + 1)) = m := by omega
  rw [harith, hv]
  rfl

/-- If a series has no observation, interpolation leaves every position
missing. -/
theorem interpAt_of_all_none {l : List (Option ℚ)} (h : ∀ v ∈ l, v = none)
    (q : Nat) : interpAt l q = none := by
  have hlast : lastObsBefore l q = none := by
    apply List.findSome?_eq_none.mpr
    intro p hp
    have hmem : p ∈ (l.take q).enum := List.mem_reverse.mp hp
    have := get?_of_mem_enum hmem
    have hsub : p.2 ∈ l := List.take_subset q l (List.get?_mem this)
    rw [h p.2 hsub]
    rfl
  have hnext : nextObsAfter l q = none := by
    apply List.findSome?_eq_none.mpr
    intro p hp
    have hmem : p ∈ l.enum := List.drop_subset _ _ hp
    have := get?_of_mem_enum hmem
    have hsub : p.2 ∈ l := List.get?_mem this
    rw [h p.2 hsub]
    rfl
  unfold interpAt
  cases hq : l.get? q with
  | none => rw [hlast, hnext]
  | some v =>
    cases v with
    | none => rw [hlast, hnext]
    | some a => exact absurd (h _ (List.get?_mem hq)) (by simp)

/-- If interpolation leaves a position missing although the position exists,
the whole series is unobserved. -/
theorem all_none_of_interpAt_none {l : List (Option ℚ)} {q : Nat}
    (hq : q < l.length) (h : interpAt l q = none) : ∀ v ∈ l, v = none := by
  have hex : ∃ w, l.get? q = some w := by
    cases hl : l.get? q with
    | none => exact absurd (List.get?_eq_none.mp hl) (by omega)
    | some w => exact ⟨w, rfl⟩
  obtain ⟨w, hw⟩ := hex
  unfold interpAt at h
  rw [hw] at h
  cases w with
  | some a => exact absurd h (by simp)
  | none =>
    cases hlast : lastObsBefore l q with
    | some p => rw [hlast] at h; cases hnext : nextObsAfter l q <;>
        rw [hnext] at h <;> simp at h
    | none =>
      cases hnext : nextObsAfter l q with
      | some p => rw [hlast, hnext] at h; simp at h
      | none =>
        have hlast' := List.findSome?_eq_none.mp hlast
        have hnext' := List.findSome?_eq_none.mp hnext
        intro v hv
        rcases List.mem_iff_get?.mp hv with ⟨m, hm⟩
        rcases Nat.lt_trichotomy m q with hlt | rfl | hgt
        · have := hlast' (m, v) (List.mem_reverse.mpr (mem_enum_take hlt hm))
          exact Option.map_eq_none'.mp this
        · rw [hw] at hm; injection hm with h2; exact h2.symm
        · have := hnext' (m, v) (mem_enum_drop hgt hm)
          exact Option.map_eq_none'.mp this

/-- Interpolation keeps an observed value. -/
theorem interpAt_observed {l : List (Option ℚ)} {i : Nat} {v : ℚ}
    (h : l.get? i = some (some v)) : interpAt l i = some v := by
  unfold interpAt
  rw [h]

/-- A missing value bounded by observations on both sides is linearly
interpolated on positions. -/
theorem interpAt_bounded {l : List (Option ℚ)} {i j k : Nat} {a b : ℚ}
    (hg : l.get? i = some none) (hl : lastObsBefore l i = some (j, a))
    (hn : nextObsAfter l i = some (k, b)) :
    interpAt l i =
      some (a + (b - a) * (((i : ℚ) - (j : ℚ)) / ((k : ℚ) - (j : ℚ)))) := by
  unfold interpAt
  rw [hg, hl, hn]

/-- A missing value in a leading gap is filled with the first observation
after it, not dropped. -/
theorem interpAt_leading {l : List (Option ℚ)} {i k : Nat} {b : ℚ}
    (hg : l.get? i = some none) (hl : lastObsBefore l i = none)
    (hn : nextObsAfter l i = some (k, b)) : interpAt l i = some b := by
  unfold interpAt
  rw [hg, hl, hn]

/-- A missing value in a trailing gap is filled with the last observation
before it, not dropped. -/
theorem interpAt_trailing {l : List (Option ℚ)} {i j : Nat} {a : ℚ}
    (hg : l.get? i = some none) (hl : lastObsBefore l i = some (j, a))
    (hn : nextObsAfter l i = none) : interpAt l i = some a := by
  unfold interpAt
  rw [hg, hl, hn]

/-- If the series has any observation, interpolation with both limit
directions fills every existing position. -/
theorem interpAt_isSome_of_obs {l : List (Option ℚ)} {q : Nat}
    (hq : q < l.length) (hobs : ∃ v ∈ l, v.isSome = true) :
    (interpAt l q).isSome = true := by
  cases hres : interpAt l q with
  | some v => rfl
  | none =>
    obtain ⟨v, hv, hvs⟩ := hobs
    have := all_none_of_interpAt_none hq hres v hv
    rw [this] at hvs
    exact absurd hvs (by simp)

/-- Positions of `transformInterpolate`. -/
theorem transformInterpolate_get? (job_type : String) (df : List Row) (i : Nat) :
    (transformInterpolate job_type df).get? i =
      (df.get? i).map (fun r => { r with pm2_5 := interpVal job_type df i }) := by
  unfold transformInterpolate
  rw [List.get?_map, List.get?_enum]
  cases df.get? i <;> rfl

/-- `transformInterpolate` preserves the row count. -/
theorem transformInterpolate_length (job_type : String) (df : List Row) :
    (transformInterpolate job_type df).length = df.length := by
  unfold transformInterpolate
  rw [List.length_map, List.enum_length]

/-- Filtering an enumeration on the element does not change the match
count. -/
theorem enumFrom_filter_length {α : Type} (q : α → Bool) :
    ∀ (l : List α) (n : Nat),
      ((List.enumFrom n l).filter (fun p => q p.2)).length = (l.filter q).length := by
  intro l
  induction l with
  | nil => intro n; rfl
  | cons x xs ih =>
    intro n
    show ((( n, x) :: List.enumFrom (n + 1) xs).filter (fun p => q p.2)).length = _
    by_cases hq : q x = true
    · rw [List.filter_cons_of_pos (by simpa using hq),
        List.filter_cons_of_pos hq]
      simp [ih]
    · rw [List.filter_cons_of_neg (by simpa using hq),
        List.filter_cons_of_neg (by simpa using hq)]
      exact ih (n + 1)

/-- Taking a prefix commutes with enumeration. -/
theorem enum_take {α : Type} (l : List α) (n : Nat) :
    l.enum.take n = (l.take n).enum := by
  apply List.ext_get?
  intro j
  by_cases hj : j < n
  · rw [List.get?_take hj, List.get?_enum, List.get?_enum]
    by_cases hjl : j < l.length
    · rw [List.get?_take hj]
    · have h1 : l.get? j = none := List.get?_eq_none.mpr (by omega)
      have h2 : (l.take n).get? j = none :=
        List.get?_eq_none.mpr (by rw [List.length_take]; omega)
      rw [h1, h2]
  · have h1 : (l.enum.take n).get? j = none :=
      List.get?_eq_none.mpr (by rw [List.length_take]; omega)
    have h2 : ((l.take n).enum).get? j = none :=
      List.get?_eq_none.mpr (by rw [List.enum_length, List.length_take]; omega)
    rw [h1, h2]

/-- The group positions of the successive members of a group enumerate
`0, 1, 2, …`: mapping each matching index to the number of earlier matches
yields an initial segment (stated with an arbitrary already-consumed
prefix). -/
theorem pos_map_eq_range (q : Row → Bool) :
    ∀ (l pre : List Row),
      ((List.enumFrom pre.length l).filter (fun p => q p.2)).map
        (fun p => (((pre ++ l).take p.1).filter q).length) =
      (List.range (l.filter q).length).map
        (fun j => j + (pre.filter q).length) := by
  intro l
  induction l with
  | nil => intro pre; rfl
  | cons x xs ih =>
    intro pre
    have hsplit : pre ++ x :: xs = (pre ++ [x]) ++ xs := by
      rw [List.append_assoc]; rfl
    have hlen : pre.length + 1 = (pre ++ [x]).length := by
      rw [List.length_append]; rfl
    show ((((pre.length, x)) :: List.enumFrom (pre.length + 1) xs).filter
        (fun p => q p.2)).map _ = _
    by_cases hq : q x = true
    · rw [List.filter_cons_of_pos (by simpa using hq), List.map_cons]
      have hhead : (((pre ++ x :: xs).take pre.length).filter q).length =
          (pre.filter q).length := by
        rw [List.take_append_of_le_length (le_refl _), List.take_length]
      have htail := ih (pre ++ [x])
      rw [← hlen, ← hsplit] at htail
      rw [hhead, htail]
      have hcnt : ((pre ++ [x]).filter q).length = (pre.filter q).length + 1 := by
        rw [List.filter_append, List.length_append,
          List.filter_cons_of_pos hq]
        rfl
      rw [List.filter_cons_of_pos hq, List.length_cons,
        List.range_succ_eq_map, List.map_cons, List.map_map]
      refine List.cons_eq_cons.mpr ⟨by omega, ?_⟩
      apply List.map_congr_left
      intro j _
      simp only [Function.comp_apply, hcnt, Nat.succ_eq_add_one]
      omega
    · rw [List.filter_cons_of_neg (by simpa using hq)]
      have htail := ih (pre ++ [x])
      rw [← hlen, ← hsplit] at htail
      have hcnt : ((pre ++ [x]).filter q).length = (pre.filter q).length := by
        rw [List.filter_append, List.length_append,
          List.filter_cons_of_neg (by simpa using hq)]
        rfl
      rw [htail, hcnt, List.filter_cons_of_neg (by simpa using hq)]

/-- Interpolating does not change a row's group position. -/
theorem posInKeyGroup_tI (jt : String) (df : List Row) (i : Nat) :
    posInKeyGroup jt (transformInterpolate jt df) i = posInKeyGroup jt df i := by
  unfold posInKeyGroup
  rw [transformInterpolate_get?]
  cases hget : df.get? i with
  | none => rfl
  | some r =>
    simp only [Option.map_some']
    show (((transformInterpolate jt df).take i).filter
        (fun x => rowKey jt x = rowKey jt r)).length = _
    have h1 : (transformInterpolate jt df).take i =
        ((df.take i).enum).map (fun p => { p.2 with pm2_5 := interpVal jt df p.1 }) := by
      unfold transformInterpolate
      rw [← List.map_take, enum_take]
    rw [h1, List.filter_map, List.length_map]
    show (List.filter (fun p : Nat × Row => rowKey jt p.2 = rowKey jt r)
        (List.enumFrom 0 (df.take i))).length = _
    exact enumFrom_filter_length
      (fun x => decide (rowKey jt x = rowKey jt r)) (df.take i) 0

/-- The row at `i` sits strictly inside its group's series. -/
theorem posInKeyGroup_lt (jt : String) {df : List Row} {i : Nat} {r : Row}
    (hget : df.get? i = some r) :
    posInKeyGroup jt df i < (keyGroupSeries jt df i).length := by
  have hi : i < df.length := by
    by_contra hc
    rw [List.get?_eq_none.mpr (by omega)] at hget
    exact absurd hget (by simp)
  have hr : df.get ⟨i, hi⟩ = r := by
    have := List.get?_eq_get hi
    rw [hget] at this
    injection this with h
    exact h.symm
  unfold posInKeyGroup keyGroupSeries
  rw [hget, List.length_map]
  conv_rhs => rw [← List.take_append_drop i df]
  rw [List.filter_append, List.length_append]
  have hdrop : df.drop i = r :: df.drop (i + 1) := by
    rw [List.drop_eq_get_cons hi, hr]
  rw [hdrop, List.filter_cons_of_pos (by simp)]
  simp only [List.length_cons]
  omega

/-- Interpolating maps the group's series to its interpolation. -/
theorem keyGroupSeries_tI (jt : String) {df : List Row} {i : Nat} {r : Row}
    (hget : df.get? i = some r) :
    keyGroupSeries jt (transformInterpolate jt df) i =
      interpolateLinearBoth (keyGroupSeries jt df i) := by
  unfold keyGroupSeries
  rw [transformInterpolate_get?, hget]
  simp only [Option.map_some']
  show (((transformInterpolate jt df).filter
      (fun x => rowKey jt x = rowKey jt r)).map Row.pm2_5) = _
  have hA : (transformInterpolate jt df).filter
      (fun x => rowKey jt x = rowKey jt r) =
      ((df.enum.filter (fun p => rowKey jt p.2 = rowKey jt r)).map
        (fun p => { p.2 with pm2_5 := interpVal jt df p.1 })) := by
    unfold transformInterpolate
    rw [List.filter_map]
    rfl
  rw [hA, List.map_map]
  have hC : ∀ p ∈ df.enum.filter (fun p => rowKey jt p.2 = rowKey jt r),
      (Row.pm2_5 ∘ fun p : Nat × Row => { p.2 with pm2_5 := interpVal jt df p.1 }) p =
        interpAt ((df.filter (fun x => rowKey jt x = rowKey jt r)).map Row.pm2_5)
          (((df.take p.1).filter (fun x => rowKey jt x = rowKey jt r)).length) := by
    intro p hp
    have hpe : df.get? p.1 = some p.2 :=
      get?_of_mem_enum (List.mem_of_mem_filter hp)
    have hpk : rowKey jt p.2 = rowKey jt r := by
      have h := List.of_mem_filter hp
      exact of_decide_eq_true h
    show interpVal jt df p.1 = _
    unfold interpVal keyGroupSeries posInKeyGroup
    rw [hpe]
    simp only [hpk]
  rw [List.map_congr_left hC]
  have hD : (df.enum.filter (fun p => rowKey jt p.2 = rowKey jt r)).map
      (fun p => interpAt
        ((df.filter (fun x => rowKey jt x = rowKey jt r)).map Row.pm2_5)
        (((df.take p.1).filter (fun x => rowKey jt x = rowKey jt r)).length)) =
      ((df.enum.filter (fun p => rowKey jt p.2 = rowKey jt r)).map
        (fun p => ((df.take p.1).filter (fun x => rowKey jt x = rowKey jt r)).length)).map
        (interpAt ((df.filter (fun x => rowKey jt x = rowKey jt r)).map Row.pm2_5)) := by
    rw [List.map_map]
    rfl
  rw [hD]
  have hE := pos_map_eq_range (fun x => rowKey jt x = rowKey jt r) df []
  simp only [List.length_nil, List.nil_append, List.filter_nil,
    Nat.add_zero] at hE
  have henum : df.enum = List.enumFrom 0 df := rfl
  rw [henum, hE]
  unfold interpolateLinearBoth
  rw [List.length_map]
  congr 1
  simp

/-- Interpolating an already interpolated series changes nothing at existing
positions. -/
theorem interpAt_interpolateLinearBoth (g : List (Option ℚ)) (p : Nat)
    (hp : p < g.length) :
    interpAt (interpolateLinearBoth g) p = interpAt g p := by
  by_cases hobs : ∃ v ∈ g, v.isSome = true
  · have h1 : (interpAt g p).isSome = true := interpAt_isSome_of_obs hp hobs
    obtain ⟨w, hw⟩ := Option.isSome_iff_exists.mp h1
    have h2 : (interpolateLinearBoth g).get? p = some (some w) := by
      unfold interpolateLinearBoth
      rw [List.get?_map, List.get?_range hp, Option.map_some', hw]
    rw [interpAt_observed h2, hw]
  · have hall : ∀ v ∈ g, v = none := by
      intro v hv
      cases hv' : v with
      | none => rfl
      | some a => exact absurd ⟨v, hv, by rw [hv']; rfl⟩ hobs
    have h3 : ∀ v ∈ interpolateLinearBoth g, v = none := by
      intro v hv
      unfold interpolateLinearBoth at hv
      rcases List.mem_map.mp hv with ⟨j, _, rfl⟩
      exact interpAt_of_all_none hall j
    rw [interpAt_of_all_none h3 p, interpAt_of_all_none hall p]

/-- The per-group interpolation transform is idempotent. -/
theorem transformInterpolate_idem (jt : String) (df : List Row) :
    transformInterpolate jt (transformInterpolate jt df) =
      transformInterpolate jt df := by
  apply List.ext_get?
  intro m
  rw [transformInterpolate_get?, transformInterpolate_get?]
  cases hget : df.get? m with
  | none => rfl
  | some r =>
    simp only [Option.map_some']
    have hv : interpVal jt (transformInterpolate jt df) m = interpVal jt df m := by
      unfold interpVal
      rw [posInKeyGroup_tI, keyGroupSeries_tI jt hget]
      exact interpAt_interpolateLinearBoth _ _ (posInKeyGroup_lt jt hget)
    rw [hv]

/-- C8 counterexample: the input's leading row (no observed value before it)
and trailing row (no observed value after it) are not dropped by
`preprocess_data` — they come back filled with the nearest observed value of
their group, because the interpolation runs with `limit_direction="both"`. -/
theorem leading_gap_filled_not_dropped :
    preprocess_data exGaps "hourly" "train" =
      [⟨"d", "s", 0, some 1⟩, ⟨"d", "s", 1, some 1⟩, ⟨"d", "s", 2, some 3⟩,
       ⟨"d", "s", 3, some 3⟩] ∧
    exGaps.map Row.pm2_5 = [none, some 1, some 3, none] := by
  refine ⟨by decide, rfl⟩

/-- C8 amended: per group, a missing value bounded by observations on both
sides is linearly interpolated on positions, but a missing value in a leading
or trailing gap is filled with the nearest observed value of the group
(`limit_direction="both"`) rather than dropped; after interpolation a
position is still missing exactly when its whole group is unobserved, and
those are the only rows the final `dropna` removes (on the hourly path the
second interpolation pass is a no-op, so the returned table is exactly the
once-interpolated table restricted to groups with at least one
observation). -/
theorem interpolation_fills_edges_amended :
    (∀ (data : List Row) (job_type : String),
      preprocess_data data "hourly" job_type =
        (transformInterpolate job_type data).filter (fun r => r.pm2_5.isSome)) ∧
    (∀ (l : List (Option ℚ)) (i : Nat), i < l.length →
      ((interpAt l i).isSome = true ↔ ∃ v ∈ l, v.isSome = true)) ∧
    (∀ (l : List (Option ℚ)) (i j k : Nat) (a b : ℚ),
      l.get? i = some none → lastObsBefore l i = some (j, a) →
      nextObsAfter l i = some (k, b) →
      interpAt l i =
        some (a + (b - a) * (((i : ℚ) - (j : ℚ)) / ((k : ℚ) - (j : ℚ))))) ∧
    (∀ (l : List (Option ℚ)) (i k : Nat) (b : ℚ),
      l.get? i = some none → lastObsBefore l i = none →
      nextObsAfter l i = some (k, b) → interpAt l i = some b) ∧
    (∀ (l : List (Option ℚ)) (i j : Nat) (a : ℚ),
      l.get? i = some none → lastObsBefore l i = some (j, a) →
      nextObsAfter l i = none → interpAt l i = some a) := by
  refine ⟨?_, ?_, ?_, ?_, ?_⟩
  · intro data job_type
    show List.filter (fun r => r.pm2_5.isSome)
        (transformInterpolate job_type
          (if ("hourly" : String) = "daily"
            then resampleDailyMean job_type (transformInterpolate job_type data)
            else transformInterpolate job_type data)) = _
    rw [if_neg (by decide), transformInterpolate_idem]
  · intro l i hi
    constructor
    · intro hsome
      by_contra hno
      have hall : ∀ v ∈ l, v = none := by
        intro v hv
        cases hv' : v with
        | none => rfl
        | some a => exact absurd ⟨v, hv, by rw [hv']; rfl⟩ hno
      rw [interpAt_of_all_none hall i] at hsome
      exact absurd hsome (by simp)
    · exact interpAt_isSome_of_obs hi
  · intro l i j k a b hg hl hn
    exact interpAt_bounded hg hl hn
  · intro l i k b hg hl hn
    exact interpAt_leading hg hl hn
  · intro l i j a hg hl hn
    exact interpAt_trailing hg hl hn

/-- Witness for the C8 amended theorem: a leading gap gets the first
observation of its group. -/
theorem interpolation_fills_edges_amended_witness :
    interpAt [none, some 1] 0 = some 1 :=
  interpolation_fills_edges_amended.2.2.2.1 [none, some 1] 0 1 1
    (by decide) (by decide) (by decide)
